import Mathlib

/-!
Verification of the gooze mutation-testing engine against its specification.

This file gives a shallow embedding of the core data model and operations of
the repository (mutation score computation, verdict mapping in the test
orchestrator, deterministic sharding, the branch and comparison mutagens,
and the append-only spill store), followed by theorems settling the frozen
claims about the program.

Conventions of the embedding:
* Byte strings (Go `[]byte`) are `List Nat`, each element a byte value.
* Go pointers that may be nil are `Option`.
* Go `error` results are `Except String` / `Option String`.
* Go `float64` score arithmetic is carried out over `Rat`; the integer
  counters are exact in both worlds, and the claims about the score are
  settled at the level of exact arithmetic.
* Go `int` is modelled as `Int` (64-bit overflow never occurs at the sizes
  involved here, so plain integers are faithful).
-/

namespace Gooze

/-- Status of a single mutation test; mirrors `TestStatus` in the model
package.  The current code (orchestrator, score) also uses a `Timeout`
status; its enum declaration is part of the model package described in
spec section 3, so the variant set here is {Killed, Survived, Skipped,
Timeout, Error}. -/
inductive TestStatus where
  | Killed
  | Survived
  | Skipped
  | Timeout
  | Error
deriving DecidableEq, Repr

/-- Mutation category; mirrors `type MutationType string`. -/
def MutationType := String
deriving instance DecidableEq, BEq, Repr for MutationType

/-- A source code file; mirrors the model's `File` (spec section 6: full
path + relative path + hash). -/
structure File where
  fullPath : String
  relPath : String := ""
  hash : String := ""
deriving DecidableEq, Repr

/-- A source together with its optional companion test; mirrors
`type Source struct { Origin *File; Test *File; Package *string }`. -/
structure Source where
  origin : Option File
  test : Option File := none
  pkg : Option String := none
deriving DecidableEq, Repr

/-- One entry of a result; mirrors the anonymous entry struct
`{ MutationID string; Status TestStatus; Err error }`. -/
structure ResultEntry where
  mutationId : String
  status : TestStatus
  err : Option String := none
deriving DecidableEq, Repr

/-- Result of testing mutations, grouped by type; mirrors
`type Result map[MutationType][]entry`.  The Go map is embedded as an
association list with at most one binding per key; lookup takes the
first binding. -/
abbrev Result := List (MutationType × List ResultEntry)

/-- Map lookup `result[t]`: `none` plays the role of `ok == false`. -/
def Result.lookup (r : Result) (t : MutationType) : Option (List ResultEntry) :=
  (List.find? (fun p => p.1 == t) r).map (fun p => p.2)

/-- A mutation as consumed by the workflow and the orchestrator; mirrors
the model's `Mutation` (ID, Source, Type, MutatedCode).  The lazily
computed diff is not relevant to any claim and is omitted from the
embedding. -/
structure Mutation where
  id : String
  source : Source
  type : MutationType
  mutatedCode : List Nat := []
deriving DecidableEq, Repr

/-- A persisted report; mirrors the model's `Report` (Source + Result). -/
structure Report where
  source : Source
  result : Result
deriving DecidableEq, Repr

/-! ## SHA-256

The repository derives mutation IDs and shard assignments from SHA-256
digests (Go `crypto/sha256`).  The hash is embedded here in full, over
byte lists, with 32-bit words as naturals reduced modulo `2 ^ 32`. -/

/-- Word size modulus for 32-bit arithmetic. -/
def w32 : Nat := 4294967296

/-- Addition modulo `2 ^ 32`. -/
def add32 (a b : Nat) : Nat := (a + b) % w32

/-- Right rotation of a 32-bit word. -/
def rotr32 (n x : Nat) : Nat :=
  ((x >>> n) ||| (x <<< (32 - n))) % w32

/-- Bitwise complement of a 32-bit word. -/
def not32 (x : Nat) : Nat := x ^^^ 4294967295

/-- SHA-256 round constants (decimal values of the standard table). -/
def sha256K : List Nat :=
  [1116352408, 1899447441, 3049323471, 3921009573,
   961987163, 1508970993, 2453635748, 2870763221,
   3624381080, 310598401, 607225278, 1426881987,
   1925078388, 2162078206, 2614888103, 3248222580,
   3835390401, 4022224774, 264347078, 604807628,
   770255983, 1249150122, 1555081692, 1996064986,
   2554220882, 2821834349, 2952996808, 3210313671,
   3336571891, 3584528711, 113926993, 338241895,
   666307205, 773529912, 1294757372, 1396182291,
   1695183700, 1986661051, 2177026350, 2456956037,
   2730485921, 2820302411, 3259730800, 3345764771,
   3516065817, 3600352804, 4094571909, 275423344,
   430227734, 506948616, 659060556, 883997877,
   958139571, 1322822218, 1537002063, 1747873779,
   1955562222, 2024104815, 2227730452, 2361852424,
   2428436474, 2756734187, 3204031479, 3329325298]

/-- SHA-256 initial hash state (decimal values of the standard table). -/
def sha256H0 : List Nat :=
  [1779033703, 3144134277, 1013904242, 2773480762,
   1359893119, 2600822924, 528734635, 1541459225]

/-- Message padding: append `0x80`, zero bytes, and the 64-bit big-endian
bit length so the padded length is a multiple of 64 bytes. -/
def sha256Pad (msg : List Nat) : List Nat :=
  let len := msg.length
  let zeros := (119 - len % 64) % 64
  let bitLen := len * 8
  msg ++ [0x80] ++ List.replicate zeros 0 ++
    [bitLen >>> 56 % 256, bitLen >>> 48 % 256, bitLen >>> 40 % 256,
     bitLen >>> 32 % 256, bitLen >>> 24 % 256, bitLen >>> 16 % 256,
     bitLen >>> 8 % 256, bitLen % 256]

/-- Split a byte list into chunks of the given positive size. -/
def chunksOf (n : Nat) (hn : 0 < n) : List Nat → List (List Nat)
  | [] => []
  | x :: xs => (x :: xs).take n :: chunksOf n hn ((x :: xs).drop n)
termination_by l => l.length
decreasing_by
  simp only [List.length_drop, List.length_cons]
  omega

/-- Big-endian combination of four bytes into one 32-bit word. -/
def beWord : List Nat → Nat
  | [b0, b1, b2, b3] => b0 <<< 24 + b1 <<< 16 + b2 <<< 8 + b3
  | _ => 0

/-- The 16 message-schedule words of one 64-byte block. -/
def blockWords (block : List Nat) : List Nat :=
  (chunksOf 4 (by omega) block).map beWord

/-- Small sigma functions of the message schedule. -/
def smallSigma0 (x : Nat) : Nat := rotr32 7 x ^^^ rotr32 18 x ^^^ (x >>> 3)

/-- Second small sigma function of the message schedule. -/
def smallSigma1 (x : Nat) : Nat := rotr32 17 x ^^^ rotr32 19 x ^^^ (x >>> 10)

/-- Extend the 16 block words to the 64 schedule words. -/
def extendSchedule (ws : List Nat) : Nat → List Nat
  | 0 => ws
  | n + 1 =>
    let k := ws.length
    let next := add32 (add32 (smallSigma1 (ws.getD (k - 2) 0)) (ws.getD (k - 7) 0))
      (add32 (smallSigma0 (ws.getD (k - 15) 0)) (ws.getD (k - 16) 0))
    extendSchedule (ws ++ [next]) n

/-- Big sigma functions of the compression rounds. -/
def bigSigma0 (x : Nat) : Nat := rotr32 2 x ^^^ rotr32 13 x ^^^ rotr32 22 x

/-- Second big sigma function of the compression rounds. -/
def bigSigma1 (x : Nat) : Nat := rotr32 6 x ^^^ rotr32 11 x ^^^ rotr32 25 x

/-- Choice function. -/
def chFn (e f g : Nat) : Nat := (e &&& f) ^^^ (not32 e &&& g)

/-- Majority function. -/
def majFn (a b c : Nat) : Nat := (a &&& b) ^^^ (a &&& c) ^^^ (b &&& c)

/-- One compression round: the state is the eight working variables. -/
def sha256Round (st : List Nat) (wk : Nat × Nat) : List Nat :=
  match st with
  | [a, b, c, d, e, f, g, h] =>
    let t1 := add32 (add32 (add32 h (bigSigma1 e)) (add32 (chFn e f g) wk.2)) wk.1
    let t2 := add32 (bigSigma0 a) (majFn a b c)
    [add32 t1 t2, a, b, c, add32 d t1, e, f, g]
  | other => other

/-- Process one 64-byte block on a hash state. -/
def sha256Block (hs : List Nat) (block : List Nat) : List Nat :=
  let ws := extendSchedule (blockWords block) 48
  let st := (ws.zip sha256K).foldl sha256Round hs
  (hs.zip st).map (fun p => add32 p.1 p.2)

/-- Emit a 32-bit word as four big-endian bytes. -/
def wordBytes (x : Nat) : List Nat :=
  [x >>> 24 % 256, x >>> 16 % 256, x >>> 8 % 256, x % 256]

/-- SHA-256 digest of a byte list, as a list of 32 bytes. -/
def sha256Bytes (msg : List Nat) : List Nat :=
  let blocks := chunksOf 64 (by omega) (sha256Pad msg)
  ((blocks.foldl sha256Block sha256H0).map wordBytes).flatten

/-- Bytes of a string; the repository only hashes ASCII data (paths, hex
IDs, decimal offsets), on which Go's UTF-8 bytes coincide with the code
points taken here. -/
def strBytes (s : String) : List Nat := s.data.map Char.toNat

/-- Lower-case hexadecimal digit. -/
def hexDigitChar (n : Nat) : Char :=
  if n < 10 then Char.ofNat (48 + n) else Char.ofNat (87 + n)

/-- Two-digit hexadecimal rendering of one byte. -/
def byteToHex (b : Nat) : List Char :=
  [hexDigitChar (b / 16 % 16), hexDigitChar (b % 16)]

/-- Hexadecimal rendering of a byte list (Go `fmt.Sprintf("%x", h)`). -/
def bytesToHex (bs : List Nat) : String :=
  String.mk ((bs.map byteToHex).flatten)

/-- First sixteen hex characters of a digest (`fmt.Sprintf("%x", h)[:16]`). -/
def hex16 (bs : List Nat) : String :=
  String.mk (((bs.map byteToHex).flatten).take 16)

/-! ## Mutagen byte-patch helpers

The splicing helpers are shared by every rule family. -/

/-- Modelled from the spec: the shared splicing helper `replaceRange`
(its definition file is not part of the sources at hand; spec section
4.2 "computing (start_byte, end_byte, replacement_bytes) from the node's
recorded span, then splicing the original file's bytes").  Bytes outside
`[start, stop)` are preserved. -/
def replaceRange (content : List Nat) (start stop : Nat)
    (replacement : List Nat) : List Nat :=
  content.take start ++ replacement ++ content.drop stop

/-- Modelled from the spec: the shared helper `ensureTrailingNewline`
(definition file not part of the sources at hand; spec section 4.2 "The
result always ends with a newline").  A byte string already ending in a
newline is returned unchanged; otherwise a newline byte is appended. -/
def ensureTrailingNewline (b : List Nat) : List Nat :=
  if b.getLast? = some 10 then b else b ++ [10]

/-! ## Branch mutagen (`internal/domain/mutagens/branch.go`) -/

/-- Input of the branch-rule ID hash:
`fmt.Sprintf("%s-%s-%d", source.Origin.FullPath, "branch", idOffset)`.
The mutagen only runs on sources with a present origin. -/
def branchIdInput (source : Source) (idOffset : Nat) : String :=
  (source.origin.map File.fullPath).getD "" ++ "-branch-" ++ toString idOffset

/-- Deterministic branch mutation ID: first 16 hex characters of the
SHA-256 of the ID input. -/
def branchMutationId (source : Source) (idOffset : Nat) : String :=
  hex16 (sha256Bytes (strBytes (branchIdInput source idOffset)))

/-- Byte string of the literal `true`. -/
def trueBytes : List Nat := [116, 114, 117, 101]

/-- Byte string of the literal `false`. -/
def falseBytes : List Nat := [102, 97, 108, 115, 101]

/-- Mirrors `createConditionMutation`: splice the replacement over the
condition's span, then ensure the trailing newline.  The Go function
also computes the lazy diff, which the embedding omits. -/
def createConditionMutation (content : List Nat) (offset endOffset : Nat)
    (replacement : List Nat) (source : Source) (idOffset : Nat) : Mutation :=
  let mutated := replaceRange content offset endOffset replacement
  { id := branchMutationId source idOffset
    source := source
    type := "branch"
    mutatedCode := ensureTrailingNewline mutated }

/-- Mirrors `invertCondition`: three mutants per condition, with the
condition's byte span `[offset, endOffset)` extracted by the AST adapter.
The first wraps the original expression in a negation, the second
replaces it with `true`, the third with `false`; the two literal
replacements are emitted unconditionally, with no comparison against the
original expression. -/
def invertCondition (content : List Nat) (offset endOffset : Nat)
    (source : Source) : List Mutation :=
  let originalExpr := (content.drop offset).take (endOffset - offset)
  [ createConditionMutation content offset endOffset
      ([33, 40] ++ originalExpr ++ [41]) source offset
  , createConditionMutation content offset endOffset trueBytes source (offset + 1)
  , createConditionMutation content offset endOffset falseBytes source (offset + 2) ]

/-- Mirrors `createIfRemovalMutation`: package the already-spliced bytes
of an if-removal, ensuring the trailing newline; the ID disambiguator is
`offset + 1000`. -/
def createIfRemovalMutation (content mutated : List Nat) (source : Source)
    (offset : Nat) : Mutation :=
  let _ := content
  { id := branchMutationId source (offset + 1000)
    source := source
    type := "branch"
    mutatedCode := ensureTrailingNewline mutated }

/-! ## Comparison mutagen (`GenerateComparisonMutations`)

This rule family belongs to an earlier revision of the model whose
`Mutation.ID` is an integer counter; it is embedded with its own output
structure. -/

/-- Comparison operators, the node kinds this rule matches. -/
inductive CompOp where
  | lss
  | gtr
  | leq
  | geq
  | eql
  | neq
deriving DecidableEq, BEq, Repr

/-- Source text of a comparison operator (`token.String()`). -/
def CompOp.str : CompOp → String
  | .lss => "<"
  | .gtr => ">"
  | .leq => "<="
  | .geq => ">="
  | .eql => "=="
  | .neq => "!="

/-- Bytes of a comparison operator's source text. -/
def CompOp.bytes (op : CompOp) : List Nat := strBytes op.str

/-- The fixed operator list the alternatives are drawn from. -/
def allCompOps : List CompOp := [.lss, .gtr, .leq, .geq, .eql, .neq]

/-- Mirrors `getComparisonAlternatives`: every comparison operator other
than the original, in the fixed order. -/
def getComparisonAlternatives (original : CompOp) : List CompOp :=
  allCompOps.filter (fun op => op != original)

/-- Mutation emitted by the comparison rule (the revision of the model
this rule is written against carries an integer ID and no diff). -/
structure CompMutation where
  id : Int
  source : Source
  type : MutationType
  mutatedCode : List Nat
deriving DecidableEq, Repr

/-- The loop body of `GenerateComparisonMutations`: for each alternative
operator the counter is incremented and the spliced code is emitted with
ID `counter - 1`.  Note the splice result is NOT passed through
`ensureTrailingNewline`. -/
def genCompLoop (content : List Nat) (start stop : Nat) (source : Source) :
    List CompOp → Int → List CompMutation × Int
  | [], n => ([], n)
  | alt :: rest, n =>
    let mutated := replaceRange content start stop alt.bytes
    let mu : CompMutation :=
      { id := n, source := source, type := "comparison", mutatedCode := mutated }
    let res := genCompLoop content start stop source rest (n + 1)
    (mu :: res.1, res.2)

/-- Mirrors `GenerateComparisonMutations` after the AST adapter has
matched a binary comparison node: `start` is the byte offset of the
operator, the end of the replaced span is `start` plus the length of the
original operator's text, and one mutant is emitted per alternative
operator.  Returns the mutants and the updated ID counter. -/
def GenerateComparisonMutations (content : List Nat) (start : Nat)
    (op : CompOp) (source : Source) (mutationID : Int) :
    List CompMutation × Int :=
  let original := op.str
  let stop := start + (strBytes original).length
  genCompLoop content start stop source (getComparisonAlternatives op) mutationID

/-! ## Sharding (`workflow_pipeline.go`, `ShardMutations`)

Go's `%` on `int` is the truncated-division remainder; the dividend
reaching it here is an absolute value and the divisor is positive, so it
coincides with `Int.emod`, which the embedding uses. -/

/-- The Go conditional absolute value applied to the hash. -/
def goAbs (x : Int) : Int := if x < 0 then -x else x

/-- The SHA-256 digest of a string taken as a big-endian 32-bit prefix. -/
def sha256Prefix32 (id : String) : Nat :=
  let h := sha256Bytes (strBytes id)
  (h.getD 0 0) <<< 24 + (h.getD 1 0) <<< 16 + (h.getD 2 0) <<< 8 + h.getD 3 0

/-- The hash value computed inside `ShardMutations`:
`int(h[0])<<24 + int(h[1])<<16 + int(h[2])<<8 + int(h[3])` as a Go int. -/
def shardHashValue (id : String) : Int :=
  (sha256Prefix32 id : Int)

/-- Mirrors `ShardMutations`: pass-through when `totalShardCount ≤ 0`,
otherwise keep exactly the mutations whose hash value modulo
`totalShardCount` equals `shardIndex`. -/
def ShardMutations (allMutations : List Mutation)
    (shardIndex totalShardCount : Int) : List Mutation :=
  if totalShardCount ≤ 0 then allMutations
  else allMutations.filter
    (fun mu => goAbs (shardHashValue mu.id) % totalShardCount == shardIndex)

/-! ## Mutation score (`internal/domain/mutation_score.go`)

`mutationScoreFromReports` ranges over the reports spill, accumulating
the `killed` and `total` counters with a switch on each entry's status.
The `Range` call is embedded as a fold over the list of reports. -/

/-- One step of the status switch inside `mutationScoreFromReports`:
`Killed` increments both counters, `Survived` only the total, `Skipped`
and `Error` have an explicitly empty case, and `Timeout` hits no case of
the switch, so it also leaves the counters unchanged.  The pair is
(killed, total). -/
def scoreStep (acc : Nat × Nat) (e : ResultEntry) : Nat × Nat :=
  match e.status with
  | .Killed => (acc.1 + 1, acc.2 + 1)
  | .Survived => (acc.1, acc.2 + 1)
  | .Skipped => acc
  | .Error => acc
  | .Timeout => acc

/-- Accumulate the counters over all entries of all types of one report's
result (the two nested `for` loops). -/
def scoreCountsReport (acc : Nat × Nat) (report : Report) : Nat × Nat :=
  report.result.foldl (fun a p => p.2.foldl scoreStep a) acc

/-- The (killed, total) counters after ranging over every report. -/
def scoreCounts (reports : List Report) : Nat × Nat :=
  reports.foldl scoreCountsReport (0, 0)

/-- The mutation score; mirrors `mutationScoreFromReports`.  When the
total counter is zero the function returns the literal `100.0`;
otherwise it returns `float64(killed) / float64(total)`, embedded as
exact rational division. -/
def mutationScoreFromReports (reports : List Report) : Rat :=
  let killed := (scoreCounts reports).1
  let total := (scoreCounts reports).2
  if total = 0 then 100 else (killed : Rat) / (total : Rat)

/-! ## Status extraction (`workflow_pipeline.go`, `getMutationStatus`) -/

/-- Status of a mutation inside an orchestrator result; mirrors
`getMutationStatus`: a missing entry list for the mutation's type, an
empty list, or the absence of an entry carrying the mutation's ID all
yield `Error`; otherwise the first entry with the mutation's ID decides. -/
def getMutationStatus (result : Result) (mutation : Mutation) : TestStatus :=
  match result.lookup mutation.type with
  | none => .Error
  | some entries =>
    if entries.length < 1 then .Error
    else
      match entries.find? (fun e => e.mutationId == mutation.id) with
      | some e => e.status
      | none => .Error

/-! ## Verdict mapping (`orchestrator.runTests`)

The orchestrator observes the cancellation token at two points inside
`runTests`: once on entry (before invoking the runner) and once after the
runner returned a non-nil error.  Those two observations and the runner's
error outcome are the inputs of the embedded function. -/

/-- Verdict mapping of `runTests`: Timeout if the context was already
cancelled on entry; otherwise, if the runner returned an error, Timeout
when the context turns out cancelled and Killed when not; otherwise
Survived. -/
def runTests (cancelledAtEntry : Bool) (runnerErr : Bool)
    (cancelledAfterRun : Bool) : TestStatus :=
  if cancelledAtEntry then .Timeout
  else if runnerErr then
    (if cancelledAfterRun then .Timeout else .Killed)
  else .Survived

/-! ## Orchestrator result shapes (`orchestrator.resultForStatus`) -/

/-- Result with a single entry for the mutation's type; mirrors
`resultForStatus`. -/
def resultForStatus (mutation : Mutation) (status : TestStatus) : Result :=
  [(mutation.type, [{ mutationId := mutation.id, status := status, err := none }])]

/-- Result for a source without a companion test; mirrors
`resultForNoTest`. -/
def resultForNoTest (mutation : Mutation) : Result :=
  resultForStatus mutation .Survived

/-! ## The orchestrator (`orchestrator.TestMutation`)

The filesystem and test-runner adapters are external collaborators; the
embedding receives their outcomes as an oracle record and additionally
returns the trace of adapter calls the control flow performed, in order.
The deferred workspace cleanup runs on function return whenever
`prepareWorkspace` handed back a non-empty temp directory. -/

/-- Adapter calls the orchestrator can perform, in the order the code
reaches them. -/
inductive FSEvent where
  | findRoot
  | createTemp
  | copyDir
  | relSource
  | writeFile
  | relTest
  | runTest
  | cleanup
deriving DecidableEq, Repr

/-- Oracle outcomes for one `TestMutation` call: results of the
filesystem adapter calls, the runner outcome, and the cancellation state
at the three points where the code observes the context. -/
structure Adapters where
  findProjectRoot : Except String String
  createTempDir : Except String String
  copyDir : Option String := none
  relSourcePath : Except String String := .ok ""
  relTestPath : Except String String := .ok ""
  writeFile : Option String := none
  runnerErr : Bool := false
  cancelledAtStart : Bool := false
  cancelledAtRunTests : Bool := false
  cancelledAfterRun : Bool := false
deriving Repr

/-- Append the deferred `cleanupTempDir` event when the temp directory
was handed back non-empty. -/
def withCleanup (tmpDir : String) (evts : List FSEvent) : List FSEvent :=
  if tmpDir = "" then evts else evts ++ [.cleanup]

/-- Mirrors `TestMutation`: cancellation check, origin validation, the
no-test short circuit, workspace preparation, mutated-file write, test
run and verdict packaging; the second component is the adapter-call
trace. -/
def TestMutation (ad : Adapters) (mutation : Mutation) :
    Except String Result × List FSEvent :=
  if ad.cancelledAtStart then
    (.ok (resultForStatus mutation .Timeout), [])
  else if mutation.source.origin = none then
    (.error "source origin is nil", [])
  else if mutation.source.test = none then
    (.ok (resultForNoTest mutation), [])
  else
    match ad.findProjectRoot with
    | .error e => (.error ("failed to find project root: " ++ e), [.findRoot])
    | .ok _ =>
      match ad.createTempDir with
      | .error e =>
        (.error ("failed to create temp dir: " ++ e), [.findRoot, .createTemp])
      | .ok tmpDir =>
        match ad.copyDir with
        | some e =>
          (.error ("failed to copy project: " ++ e),
            withCleanup tmpDir [.findRoot, .createTemp, .copyDir])
        | none =>
          match ad.relSourcePath with
          | .error e =>
            (.error ("failed to get relative source path: " ++ e),
              withCleanup tmpDir [.findRoot, .createTemp, .copyDir, .relSource])
          | .ok _ =>
            match ad.writeFile with
            | some e =>
              (.error ("failed to write mutated file: " ++ e),
                withCleanup tmpDir
                  [.findRoot, .createTemp, .copyDir, .relSource, .writeFile])
            | none =>
              match ad.relTestPath with
              | .error e =>
                (.error ("failed to get relative test path: " ++ e),
                  withCleanup tmpDir
                    [.findRoot, .createTemp, .copyDir, .relSource, .writeFile,
                     .relTest])
              | .ok _ =>
                let status :=
                  runTests ad.cancelledAtRunTests ad.runnerErr ad.cancelledAfterRun
                (.ok (resultForStatus mutation status),
                  withCleanup tmpDir
                    [.findRoot, .createTemp, .copyDir, .relSource, .writeFile,
                     .relTest, .runTest])

/-! ## Spill store (`pkg.FileSpill`)

The store writes gob-encoded records to a backing file and keeps an
in-memory length counter.  The embedding carries the decoded content of
the backing file together with the counter; `Get` and `Range` re-decode
the file from the start exactly as the code does.  The effectful `Range`
callback (a Go closure over mutable state) is embedded in state-passing
style. -/

/-- State of a file spill: the items encoded into the backing file and
the in-memory length counter. -/
structure FileSpill (T : Type) where
  items : List T
  length : Nat
deriving Repr

/-- Mirrors `NewFileSpill`: fresh store with an empty file and a zero
counter. -/
def FileSpill.new (T : Type) : FileSpill T := { items := [], length := 0 }

/-- Mirrors `Append`: encode the item at the end of the file and
increment the counter (the gob encoder's I/O errors are external). -/
def FileSpill.append (f : FileSpill T) (item : T) : FileSpill T :=
  { items := f.items ++ [item], length := f.length + 1 }

/-- Mirrors `Len`. -/
def FileSpill.len (f : FileSpill T) : Nat := f.length

/-- The sequential decode loop of `Get`: read `i + 1` records from the
start of the file, keeping the last. -/
def decodeLoop : List T → Nat → Except String T
  | [], _ => .error "failed to decode item"
  | x :: _, 0 => .ok x
  | _ :: xs, i + 1 => decodeLoop xs i

/-- Mirrors `Get`: an index at or beyond the counter is rejected;
otherwise the file is re-opened and decoded from the start up to the
requested index. -/
def FileSpill.get (f : FileSpill T) (index : Nat) : Except String T :=
  if f.length ≤ index then
    .error ("index " ++ toString index ++ " out of bounds (length " ++
      toString f.length ++ ")")
  else decodeLoop f.items index

/-- The loop of `Range`: `count` iterations left, `i` the next index;
each iteration decodes one record and passes it to the callback, whose
state is threaded; decode exhaustion and callback errors both end the
loop with an error. -/
def rangeLoop (fn : σ → Nat → T → Except String σ) :
    List T → Nat → Nat → σ → Except String σ
  | _, 0, _, s => .ok s
  | [], _ + 1, _, _ => .error "failed to decode item"
  | x :: xs, count + 1, i, s =>
    match fn s i x with
    | .error e => .error e
    | .ok s2 => rangeLoop fn xs count (i + 1) s2

/-- Mirrors `Range`: iterate the callback over indices `[0, length)` in
file order. -/
def FileSpill.range (f : FileSpill T) (fn : σ → Nat → T → Except String σ)
    (init : σ) : Except String σ :=
  rangeLoop fn f.items f.length 0 init

/-- Fold a list of items into a spill with repeated `Append` calls. -/
def FileSpill.appendAll (f : FileSpill T) (xs : List T) : FileSpill T :=
  xs.foldl FileSpill.append f

/-! ## Specification-side counting definitions

The score claims speak of the number of entries with a given status
across a report collection; these counts are defined here independently
of the accumulator loop of `mutationScoreFromReports`, so the theorems
relate the two. -/

/-- All result entries of one result, across every mutation type. -/
def resultEntries (r : Result) : List ResultEntry :=
  (List.map Prod.snd r).flatten

/-- All result entries across a collection of reports. -/
def allEntries (reports : List Report) : List ResultEntry :=
  (reports.map (fun rep => resultEntries rep.result)).flatten

/-- Number of entries with the given status across a report collection. -/
def countStatus (s : TestStatus) (reports : List Report) : Nat :=
  (allEntries reports).countP (fun e => e.status == s)

/-- Whether a byte string ends with a newline byte. -/
def endsWithNewline (b : List Nat) : Bool :=
  b.getLast? == some 10

/-! ## Concrete sample data used by witnesses and counterexamples -/

/-- A sample source with a present origin and no companion test. -/
def sampleSource : Source :=
  { origin := some { fullPath := "main.go" }, test := none }

/-- A sample source with both an origin and a companion test. -/
def sampleTestedSource : Source :=
  { origin := some { fullPath := "main.go" },
    test := some { fullPath := "main_test.go" } }

/-- Byte string of the Go snippet `if true {\n}\n`; its condition span is
`[3, 7)` and already reads `true`. -/
def condAlreadyTrue : List Nat :=
  [105, 102, 32, 116, 114, 117, 101, 32, 123, 10, 125, 10]

/-- Byte string of the Go snippet `if false {\n}\n`; its condition span
is `[3, 8)` and already reads `false`. -/
def condAlreadyFalse : List Nat :=
  [105, 102, 32, 102, 97, 108, 115, 101, 32, 123, 10, 125, 10]

/-- A sample mutation. -/
def sampleMutation : Mutation :=
  { id := "m1", source := sampleTestedSource, type := "boolean",
    mutatedCode := [10] }

/-- A sample mutation over a source that has no companion test. -/
def sampleNoTestMutation : Mutation :=
  { id := "m2", source := sampleSource, type := "branch",
    mutatedCode := [10] }

/-- A sample adapter oracle where every filesystem call succeeds and the
runner reports no error. -/
def sampleAdapters : Adapters :=
  { findProjectRoot := .ok "/proj", createTempDir := .ok "/tmp/gooze-mutation-1" }

/-- A sample result carrying one Killed entry for `sampleMutation`. -/
def sampleResult : Result :=
  [("boolean", [{ mutationId := "m1", status := .Killed, err := none }])]

/-!
# Theorems

Helper lemmas come first; each claim is then settled by one theorem (plus
a counterexample or witness where called for).
-/

/-! ## Helper lemmas -/

/-- A projection fact: the mutated code of a condition mutation is the
newline-adjusted splice. -/
theorem createConditionMutation_mutatedCode (content : List Nat)
    (offset endOffset : Nat) (replacement : List Nat) (source : Source)
    (idOffset : Nat) :
    (createConditionMutation content offset endOffset replacement source
        idOffset).mutatedCode
      = ensureTrailingNewline (replaceRange content offset endOffset replacement) :=
  rfl

/-- The newline-adjusted bytes always end with a newline byte. -/
theorem endsWithNewline_ensureTrailingNewline (b : List Nat) :
    endsWithNewline (ensureTrailingNewline b) = true := by
  unfold ensureTrailingNewline endsWithNewline
  split
  · next h => simp [h]
  · simp

/-- The newline adjustment never shortens the byte string. -/
theorem length_le_ensureTrailingNewline (b : List Nat) :
    b.length ≤ (ensureTrailingNewline b).length := by
  unfold ensureTrailingNewline
  split <;> simp

/-- Splicing a range with the exact bytes that already occupy it leaves
the content unchanged. -/
theorem replaceRange_of_span_eq (c r : List Nat) (o e : Nat) (ho : o ≤ e)
    (hspan : (c.drop o).take (e - o) = r) :
    replaceRange c o e r = c := by
  rw [replaceRange, ← hspan]
  have h2 : (c.drop o).drop (e - o) = c.drop e := by
    rw [List.drop_drop]
    congr 1
    omega
  have hdrop : (c.drop o).take (e - o) ++ c.drop e = c.drop o := by
    rw [← h2, List.take_append_drop]
  rw [List.append_assoc, hdrop, List.take_append_drop]

/-- The comparison loop emits one raw splice per alternative operator,
in order. -/
theorem genCompLoop_map_mutatedCode (content : List Nat) (start stop : Nat)
    (source : Source) (alts : List CompOp) (n : Int) :
    (genCompLoop content start stop source alts n).1.map CompMutation.mutatedCode
      = alts.map (fun alt => replaceRange content start stop alt.bytes) := by
  induction alts generalizing n with
  | nil => rfl
  | cons a rest ih => simp [genCompLoop, ih]

/-! ## Claim C1 -/

/-- C1 counterexample: with no cancellation at entry, cancellation fired
during the wait, and a runner that returned no error (exit zero), the
code returns `Survived`, whereas the claim requires every mutation whose
cancellation fired during the wait to get `Timeout`.  The code only
consults the cancellation token after a runner error. -/
theorem runTests_cancelDuringWait_survives :
    runTests false false true = TestStatus.Survived ∧
    runTests false false true ≠ TestStatus.Timeout := by
  constructor
  · rfl
  · decide

/-- C1 (amended): the verdict of `runTests` is `Timeout` when
cancellation had fired before invocation; `Survived` whenever the runner
returned no error, even if cancellation fired during the wait; and, for
a runner error, `Timeout` when cancellation has fired by the post-wait
check and `Killed` when it has not.  Cancellation is monotone: once
observed at entry it is still observed after the wait. -/
theorem runTests_verdict (c1 e c2 : Bool) (hmono : c1 = true → c2 = true) :
    (c1 = true → runTests c1 e c2 = TestStatus.Timeout)
  ∧ (c1 = false → e = false → runTests c1 e c2 = TestStatus.Survived)
  ∧ (c1 = false → e = true → c2 = true → runTests c1 e c2 = TestStatus.Timeout)
  ∧ (e = true → c2 = false → runTests c1 e c2 = TestStatus.Killed) := by
  cases c1 <;> cases e <;> cases c2 <;>
    simp_all [runTests]

/-- C1 witness: the four verdict clauses at concrete inputs. -/
theorem runTests_verdict_witness :
    runTests true true true = TestStatus.Timeout
  ∧ runTests false false false = TestStatus.Survived
  ∧ runTests false true true = TestStatus.Timeout
  ∧ runTests false true false = TestStatus.Killed :=
  ⟨(runTests_verdict true true true (fun h => h)).1 rfl,
   (runTests_verdict false false false (fun h => h)).2.1 rfl rfl,
   (runTests_verdict false true true (fun h => by cases h)).2.2.1 rfl rfl rfl,
   (runTests_verdict false true false (fun h => by cases h)).2.2.2 rfl rfl⟩

/-! ## Claim C6 -/

/-- C6: for a mutation whose source has no companion test (and a present
origin, outside cancellation), `TestMutation` short-circuits: it returns
a result with a single entry for the mutation's type carrying the
mutation's ID and status `Survived`, and the adapter-call trace is empty,
so no workspace was prepared and the test runner was never invoked. -/
theorem testMutation_noTest_shortCircuit (ad : Adapters) (mu : Mutation)
    (hc : ad.cancelledAtStart = false)
    (ho : mu.source.origin ≠ none)
    (ht : mu.source.test = none) :
    TestMutation ad mu =
      (Except.ok [(mu.type,
        [{ mutationId := mu.id, status := .Survived, err := none }])],
       ([] : List FSEvent)) := by
  simp [TestMutation, hc, ht, ho, resultForNoTest, resultForStatus]

/-- C6 witness: the short circuit at a concrete adapter oracle and
mutation. -/
theorem testMutation_noTest_shortCircuit_witness :
    TestMutation sampleAdapters sampleNoTestMutation =
      (Except.ok [("branch",
        [{ mutationId := "m2", status := .Survived, err := none }])],
       ([] : List FSEvent)) :=
  testMutation_noTest_shortCircuit sampleAdapters sampleNoTestMutation
    rfl (by decide) rfl

/-! ## Claim C10 -/

/-- C10: `getMutationStatus` returns `Error` whenever the result has no
entry list for the mutation's type, the list is empty, or no entry in
the list carries the mutation's ID; otherwise it returns the status of
the entry whose MutationID equals the mutation's ID (unique such entry
by the result invariant). -/
theorem getMutationStatus_spec (result : Result) (mu : Mutation) :
    (result.lookup mu.type = none → getMutationStatus result mu = .Error)
  ∧ (result.lookup mu.type = some [] → getMutationStatus result mu = .Error)
  ∧ (∀ entries, result.lookup mu.type = some entries →
      (∀ e ∈ entries, e.mutationId ≠ mu.id) →
      getMutationStatus result mu = .Error)
  ∧ (∀ entries e, result.lookup mu.type = some entries →
      e ∈ entries → e.mutationId = mu.id →
      (∀ e2 ∈ entries, e2.mutationId = mu.id → e2 = e) →
      getMutationStatus result mu = e.status) := by
  refine ⟨?_, ?_, ?_, ?_⟩
  · intro h
    simp [getMutationStatus, h]
  · intro h
    simp [getMutationStatus, h]
  · intro entries h hne
    rcases entries with _ | ⟨e0, rest⟩
    · simp [getMutationStatus, h]
    · have hfind : (e0 :: rest).find? (fun e => e.mutationId == mu.id) = none := by
        rw [List.find?_eq_none]
        intro x hx
        simpa using hne x hx
      simp [getMutationStatus, h, hfind]
  · intro entries e h hmem hid huniq
    rcases entries with _ | ⟨e0, rest⟩
    · cases hmem
    · rcases hfind : (e0 :: rest).find? (fun e2 => e2.mutationId == mu.id) with _ | x
      · rw [List.find?_eq_none] at hfind
        exact absurd (by simpa using hid) (hfind e hmem)
      · have hx1 : x ∈ e0 :: rest := List.mem_of_find?_eq_some hfind
        have hx2 : x.mutationId = mu.id := by
          simpa using List.find?_some hfind
        have hxe : x = e := huniq x hx1 hx2
        simp [getMutationStatus, h, hfind, hxe]

/-- C10 witness: the positive clause at a concrete result and mutation. -/
theorem getMutationStatus_spec_witness :
    getMutationStatus sampleResult sampleMutation = TestStatus.Killed :=
  (getMutationStatus_spec sampleResult sampleMutation).2.2.2
    [{ mutationId := "m1", status := .Killed, err := none }]
    { mutationId := "m1", status := .Killed, err := none }
    rfl (by decide) rfl (by decide)

/-! ## Claim C9 -/

/-- C9 counterexample: the comparison rule on the three-byte content
`a<b` (which does not end in a newline) emits five mutants, none of
whose mutated code ends with a newline byte; the claim requires every
rule family, the comparison rule included, to emit code ending with a
newline. -/
theorem comparisonMutants_no_trailing_newline :
    (GenerateComparisonMutations [97, 60, 98] 1 CompOp.lss sampleSource 0).1.map
        (fun mu => endsWithNewline mu.mutatedCode)
      = [false, false, false, false, false] := by
  decide

/-- C9 (amended): every branch-rule mutant's code is passed through the
trailing-newline adjustment and hence always ends with a newline byte,
but the comparison rule emits the raw splice: each of its mutants is
exactly `replaceRange` of the original content, with no newline
adjustment, so it ends with a newline only when the spliced bytes do. -/
theorem mutant_trailing_newline_spec (c mutated r : List Nat) (o e k st : Nat)
    (s : Source) (op : CompOp) (n : Int) :
    endsWithNewline (createConditionMutation c o e r s k).mutatedCode = true
  ∧ endsWithNewline (createIfRemovalMutation c mutated s o).mutatedCode = true
  ∧ (GenerateComparisonMutations c st op s n).1.map CompMutation.mutatedCode
      = (getComparisonAlternatives op).map
          (fun alt => replaceRange c st (st + (strBytes op.str).length) alt.bytes) :=
  ⟨endsWithNewline_ensureTrailingNewline _,
   endsWithNewline_ensureTrailingNewline _,
   genCompLoop_map_mutatedCode c st (st + (strBytes op.str).length) s
     (getComparisonAlternatives op) n⟩

/-! ## Score accumulator lemmas -/

/-- The inner status switch accumulates the Killed count and the
Killed + Survived count of an entry list. -/
theorem foldl_scoreStep (entries : List ResultEntry) (acc : Nat × Nat) :
    entries.foldl scoreStep acc =
      (acc.1 + entries.countP (fun e => e.status == .Killed),
       acc.2 + entries.countP (fun e => e.status == .Killed)
             + entries.countP (fun e => e.status == .Survived)) := by
  induction entries generalizing acc with
  | nil => simp
  | cons e rest ih =>
    rw [List.foldl_cons, ih]
    rcases e with ⟨mid, status, err⟩
    cases status <;>
      simp [scoreStep, List.countP_cons, Prod.ext_iff] <;> omega

/-- The per-report loop accumulates the counts of all entries of all
types of the report's result. -/
theorem scoreCountsReport_eq (rep : Report) (acc : Nat × Nat) :
    scoreCountsReport acc rep =
      (acc.1 + (resultEntries rep.result).countP (fun e => e.status == .Killed),
       acc.2 + (resultEntries rep.result).countP (fun e => e.status == .Killed)
             + (resultEntries rep.result).countP (fun e => e.status == .Survived)) := by
  unfold scoreCountsReport
  induction rep.result generalizing acc with
  | nil => simp [resultEntries]
  | cons p rest ih =>
    rw [List.foldl_cons, foldl_scoreStep, ih]
    simp [resultEntries, List.countP_append, Prod.ext_iff]
    omega

/-- The (killed, total) counters of the score function count exactly the
Killed entries and the Killed + Survived entries of the collection. -/
theorem scoreCounts_eq (reports : List Report) :
    scoreCounts reports =
      (countStatus .Killed reports,
       countStatus .Killed reports + countStatus .Survived reports) := by
  suffices h : ∀ acc, reports.foldl scoreCountsReport acc =
      (acc.1 + countStatus .Killed reports,
       acc.2 + countStatus .Killed reports + countStatus .Survived reports) by
    simpa [scoreCounts] using h (0, 0)
  induction reports with
  | nil => intro acc; simp [countStatus, allEntries]
  | cons rep rest ih =>
    intro acc
    rw [List.foldl_cons, scoreCountsReport_eq, ih]
    simp [countStatus, allEntries, List.countP_append, Prod.ext_iff]
    omega

/-! ## Claim C3 -/

/-- C3 counterexample: the empty report collection.  The code returns
the float literal `100.0`, not the fraction `1`; in particular the
returned score does not lie in the interval [0, 1]. -/
theorem mutationScore_empty_is_100 :
    mutationScoreFromReports [] = 100 ∧ ¬ mutationScoreFromReports [] ≤ 1 := by
  constructor
  · rfl
  · norm_num [mutationScoreFromReports, scoreCounts]

/-- C3 (amended): whenever the collection has at least one Killed or
Survived entry, the score is the fraction killed / (killed + survived)
and lies in [0, 1]; when it has none — in particular for the empty
collection — the function returns the number 100 (the "100%" of the
specification as a percentage value, not as the fraction 1). -/
theorem mutationScore_bounds (reports : List Report) :
    (0 < countStatus .Killed reports + countStatus .Survived reports →
       0 ≤ mutationScoreFromReports reports ∧ mutationScoreFromReports reports ≤ 1)
  ∧ (countStatus .Killed reports + countStatus .Survived reports = 0 →
       mutationScoreFromReports reports = 100) := by
  constructor
  · intro hpos
    have htot : ((scoreCounts reports).2 : Nat) ≠ 0 := by
      rw [scoreCounts_eq]; omega
    have hk : (scoreCounts reports).1 ≤ (scoreCounts reports).2 := by
      rw [scoreCounts_eq]; omega
    unfold mutationScoreFromReports
    rw [if_neg htot]
    constructor
    · positivity
    · rw [div_le_one (by positivity)]
      exact_mod_cast hk
  · intro hzero
    have htot : ((scoreCounts reports).2 : Nat) = 0 := by
      rw [scoreCounts_eq]; omega
    unfold mutationScoreFromReports
    rw [if_pos htot]

/-- C3 witness: the score bounds at a concrete one-entry collection and
the 100 sentinel at the empty collection. -/
theorem mutationScore_bounds_witness :
    (0 ≤ mutationScoreFromReports [{ source := sampleSource, result := sampleResult }]
      ∧ mutationScoreFromReports [{ source := sampleSource, result := sampleResult }] ≤ 1)
  ∧ mutationScoreFromReports [] = 100 :=
  ⟨(mutationScore_bounds [{ source := sampleSource, result := sampleResult }]).1
      (by decide),
   (mutationScore_bounds []).2 (by decide)⟩

/-! ## Claim C7 -/

/-- C7: whenever the collection has k Killed entries and s Survived
entries with k + s > 0, the score equals k / (k + s); entries with
status Skipped, Timeout or Error enter neither the numerator nor the
denominator. -/
theorem mutationScore_killed_fraction (reports : List Report)
    (h : 0 < countStatus .Killed reports + countStatus .Survived reports) :
    mutationScoreFromReports reports =
      (countStatus .Killed reports : Rat) /
        ((countStatus .Killed reports : Rat) + (countStatus .Survived reports : Rat)) := by
  have htot : ((scoreCounts reports).2 : Nat) ≠ 0 := by
    rw [scoreCounts_eq]; omega
  unfold mutationScoreFromReports
  rw [if_neg htot, scoreCounts_eq]
  push_cast
  ring_nf

/-- C7 witness: a collection with one Killed, one Survived, one Skipped,
one Timeout and one Error entry scores exactly one half. -/
theorem mutationScore_killed_fraction_witness :
    mutationScoreFromReports [{ source := sampleSource, result :=
      [("boolean",
        [{ mutationId := "k1", status := .Killed, err := none },
         { mutationId := "s1", status := .Survived, err := none },
         { mutationId := "p1", status := .Skipped, err := none },
         { mutationId := "t1", status := .Timeout, err := none },
         { mutationId := "e1", status := .Error, err := none }])] }] =
      ((1 : Rat) / ((1 : Rat) + (1 : Rat))) :=
  mutationScore_killed_fraction
    [{ source := sampleSource, result :=
      [("boolean",
        [{ mutationId := "k1", status := .Killed, err := none },
         { mutationId := "s1", status := .Survived, err := none },
         { mutationId := "p1", status := .Skipped, err := none },
         { mutationId := "t1", status := .Timeout, err := none },
         { mutationId := "e1", status := .Error, err := none }])] }]
    (by decide)

/-! ## Sharding lemmas -/

/-- The Go absolute value is the identity on a natural hash value. -/
theorem goAbs_natCast (n : Nat) : goAbs (n : Int) = (n : Int) := by
  unfold goAbs
  rw [if_neg]
  simp

/-- For a positive shard count the sharding function is the filter by
the 32-bit hash prefix modulo the shard count, stated over naturals. -/
theorem shardMutations_eq_filter (muts : List Mutation) (i T : Nat)
    (hT : 1 ≤ T) :
    ShardMutations muts (i : Int) (T : Int)
      = muts.filter (fun mu => sha256Prefix32 mu.id % T == i) := by
  unfold ShardMutations
  rw [if_neg (by exact_mod_cast Nat.not_le.mpr (by omega))]
  apply List.filter_congr
  intro mu _
  rw [shardHashValue, goAbs_natCast]
  by_cases hx : sha256Prefix32 mu.id % T = i
  · have : ((sha256Prefix32 mu.id : Int)) % (T : Int) = (i : Int) := by
      exact_mod_cast hx
    simp [this, hx]
  · have : ((sha256Prefix32 mu.id : Int)) % (T : Int) ≠ (i : Int) := by
      intro hcontra
      exact hx (by exact_mod_cast hcontra)
    simp [this, hx]

/-- Summing the mod-residue filters of a list over all residues gives
back the list as a multiset. -/
theorem sum_filter_mod (l : List Mutation) (T : Nat) (hT : 1 ≤ T) :
    Finset.sum (Finset.range T)
      (fun i => ((l.filter (fun mu => sha256Prefix32 mu.id % T == i) : List Mutation) : Multiset Mutation))
      = (l : Multiset Mutation) := by
  induction l with
  | nil => simp
  | cons x xs ih =>
    have hx : sha256Prefix32 x.id % T < T := Nat.mod_lt _ (by omega)
    have hsplit : ∀ i : Nat,
        ((List.filter (fun mu => sha256Prefix32 mu.id % T == i) (x :: xs) : List Mutation) : Multiset Mutation)
          = (if sha256Prefix32 x.id % T = i then ({x} : Multiset Mutation) else 0)
            + ((xs.filter (fun mu => sha256Prefix32 mu.id % T == i) : List Mutation) : Multiset Mutation) := by
      intro i
      rw [List.filter_cons]
      by_cases hc : sha256Prefix32 x.id % T = i
      · simp [hc]
      · simp [hc]
    rw [Finset.sum_congr rfl (fun i _ => hsplit i), Finset.sum_add_distrib, ih]
    have hsingle : Finset.sum (Finset.range T)
        (fun i => if sha256Prefix32 x.id % T = i then ({x} : Multiset Mutation) else 0)
        = ({x} : Multiset Mutation) := by
      rw [Finset.sum_ite_eq]
      simp [hx]
    rw [hsingle]
    simp

/-! ## Claim C4 -/

/-- C4 counterexample: with total_shards = 1 and shard_index = 1 the
claim requires pass-through, but the code filters by hash modulo 1,
which is always 0 and never equals 1, so a one-mutation stream comes out
empty.  Pass-through only happens for total_shards ≤ 0. -/
theorem shardMutations_not_passthrough_at_one :
    ShardMutations [sampleMutation] 1 1 = []
    ∧ [sampleMutation] ≠ ([] : List Mutation) := by
  constructor
  · unfold ShardMutations
    rw [if_neg (by omega)]
    simp [Int.emod_one]
  · simp

/-- C4 (amended): for total_shards ≥ 1 the sharding step emits exactly
those mutants whose SHA-256 hash of the mutation ID, taken as a
big-endian 32-bit prefix and reduced modulo total_shards, equals
shard_index; and for total_shards ≤ 0 (not ≤ 1) every mutant is passed
through unchanged regardless of shard_index. -/
theorem shardMutations_spec (muts : List Mutation) (i T : Int) :
    (1 ≤ T → ShardMutations muts i T
        = muts.filter (fun mu => (sha256Prefix32 mu.id : Int) % T == i))
  ∧ (T ≤ 0 → ShardMutations muts i T = muts) := by
  constructor
  · intro hT
    unfold ShardMutations
    rw [if_neg (by omega)]
    apply List.filter_congr
    intro mu _
    rw [shardHashValue, goAbs_natCast]
  · intro hT
    unfold ShardMutations
    rw [if_pos hT]

/-- C4 witness: the filter form at shard 0 of 1 and the pass-through at
total_shards = 0 with an arbitrary shard index. -/
theorem shardMutations_spec_witness :
    ShardMutations [sampleMutation] 0 1
        = [sampleMutation].filter (fun mu => (sha256Prefix32 mu.id : Int) % 1 == 0)
  ∧ ShardMutations [sampleMutation] 5 0 = [sampleMutation] :=
  ⟨(shardMutations_spec [sampleMutation] 0 1).1 (by decide),
   (shardMutations_spec [sampleMutation] 5 0).2 (by decide)⟩

/-! ## Claim C5 -/

/-- C5: for every mutation list and every shard count T ≥ 1, the
multiset union of the sharding function's outputs over shard indices
0 .. T−1 is the original list as a multiset: every mutation lands in
exactly one shard. -/
theorem shard_partition (muts : List Mutation) (T : Nat) (hT : 1 ≤ T) :
    Finset.sum (Finset.range T)
      (fun i => ((ShardMutations muts (i : Int) (T : Int)) : Multiset Mutation))
      = (muts : Multiset Mutation) := by
  have h1 : ∀ i : Nat, ShardMutations muts (i : Int) (T : Int)
      = muts.filter (fun mu => sha256Prefix32 mu.id % T == i) :=
    fun i => shardMutations_eq_filter muts i T hT
  have h2 : Finset.sum (Finset.range T)
      (fun i => ((ShardMutations muts (i : Int) (T : Int)) : Multiset Mutation))
      = Finset.sum (Finset.range T)
        (fun i => ((muts.filter (fun mu => sha256Prefix32 mu.id % T == i) : List Mutation) : Multiset Mutation)) :=
    Finset.sum_congr rfl (fun i _ => by rw [h1 i])
  rw [h2]
  exact sum_filter_mod muts T hT

/-- C5 witness: a single shard reproduces a one-mutation stream. -/
theorem shard_partition_witness :
    Finset.sum (Finset.range 1)
      (fun i => ((ShardMutations [sampleMutation] (i : Int) (1 : Int)) : Multiset Mutation))
      = ([sampleMutation] : Multiset Mutation) :=
  shard_partition [sampleMutation] 1 (by decide)

/-! ## Claim C2 -/

/-- C2 counterexample: on the content `if true {\n}\n` whose if-condition
span [3, 7) already reads `true`, the force-true branch mutant (the
second mutant of `invertCondition`) has mutated code equal to the
original content byte for byte, contradicting the invariant that every
emitted mutation differs from its origin file. -/
theorem branchForceTrue_equals_original :
    ((invertCondition condAlreadyTrue 3 7 sampleSource).map
        Mutation.mutatedCode).get? 1
      = some condAlreadyTrue := by
  decide

/-- C2 (amended): the negation-wrap branch mutant always differs from
the original content (its splice is three bytes longer), but the
force-true and force-false mutants are emitted unconditionally, with no
comparison against the original condition, and each coincides with the
original content whenever the condition span already reads that very
literal and the file ends with a newline. -/
theorem branchConditionMutants_spec (c : List Nat) (o e : Nat) (s : Source) :
    (o ≤ e → e ≤ c.length →
      ((invertCondition c o e s).map Mutation.mutatedCode).get? 0 ≠ some c)
  ∧ (o ≤ e → (c.drop o).take (e - o) = trueBytes → c.getLast? = some 10 →
      ((invertCondition c o e s).map Mutation.mutatedCode).get? 1 = some c)
  ∧ (o ≤ e → (c.drop o).take (e - o) = falseBytes → c.getLast? = some 10 →
      ((invertCondition c o e s).map Mutation.mutatedCode).get? 2 = some c) := by
  refine ⟨?_, ?_, ?_⟩
  · intro ho he hcontra
    have hget : ((invertCondition c o e s).map Mutation.mutatedCode).get? 0
        = some (ensureTrailingNewline (replaceRange c o e
            ([33, 40] ++ ((c.drop o).take (e - o)) ++ [41]))) := rfl
    rw [hget, Option.some_inj] at hcontra
    have hlen1 : (replaceRange c o e
        ([33, 40] ++ ((c.drop o).take (e - o)) ++ [41])).length
        ≤ (ensureTrailingNewline (replaceRange c o e
            ([33, 40] ++ ((c.drop o).take (e - o)) ++ [41]))).length :=
      length_le_ensureTrailingNewline _
    rw [hcontra] at hlen1
    have hlen2 : (replaceRange c o e
        ([33, 40] ++ ((c.drop o).take (e - o)) ++ [41])).length
        = c.length + 3 := by
      simp [replaceRange]
      omega
    omega
  · intro ho hspan hnl
    have hget : ((invertCondition c o e s).map Mutation.mutatedCode).get? 1
        = some (ensureTrailingNewline (replaceRange c o e trueBytes)) := rfl
    rw [hget, replaceRange_of_span_eq c trueBytes o e ho hspan]
    unfold ensureTrailingNewline
    rw [if_pos hnl]
  · intro ho hspan hnl
    have hget : ((invertCondition c o e s).map Mutation.mutatedCode).get? 2
        = some (ensureTrailingNewline (replaceRange c o e falseBytes)) := rfl
    rw [hget, replaceRange_of_span_eq c falseBytes o e ho hspan]
    unfold ensureTrailingNewline
    rw [if_pos hnl]

/-- C2 witness: on the content `if true {\n}\n` the negation mutant
differs from the original while the force-true mutant equals it, and on
`if false {\n}\n` the force-false mutant equals the original. -/
theorem branchConditionMutants_spec_witness :
    (((invertCondition condAlreadyTrue 3 7 sampleSource).map
        Mutation.mutatedCode).get? 0 ≠ some condAlreadyTrue)
  ∧ (((invertCondition condAlreadyTrue 3 7 sampleSource).map
        Mutation.mutatedCode).get? 1 = some condAlreadyTrue)
  ∧ (((invertCondition condAlreadyFalse 3 8 sampleSource).map
        Mutation.mutatedCode).get? 2 = some condAlreadyFalse) :=
  ⟨(branchConditionMutants_spec condAlreadyTrue 3 7 sampleSource).1
      (by decide) (by decide),
   (branchConditionMutants_spec condAlreadyTrue 3 7 sampleSource).2.1
      (by decide) (by decide) (by decide),
   (branchConditionMutants_spec condAlreadyFalse 3 8 sampleSource).2.2
      (by decide) (by decide) (by decide)⟩

/-! ## Spill store lemmas -/

/-- Appending a list of items to a consistent spill appends them to the
backing file and advances the counter accordingly. -/
theorem appendAll_consistent (T : Type) (xs l : List T) :
    FileSpill.appendAll { items := l, length := l.length } xs
      = { items := l ++ xs, length := (l ++ xs).length } := by
  induction xs generalizing l with
  | nil => simp [FileSpill.appendAll]
  | cons x rest ih =>
    have hstep : FileSpill.append { items := l, length := l.length } x
        = { items := l ++ [x], length := (l ++ [x]).length } := by
      simp [FileSpill.append]
    calc FileSpill.appendAll { items := l, length := l.length } (x :: rest)
        = FileSpill.appendAll { items := l ++ [x], length := (l ++ [x]).length } rest := by
          rw [FileSpill.appendAll, List.foldl_cons, hstep, FileSpill.appendAll]
      _ = { items := (l ++ [x]) ++ rest, length := ((l ++ [x]) ++ rest).length } := ih (l ++ [x])
      _ = { items := l ++ x :: rest, length := (l ++ x :: rest).length } := by
          simp

/-- The sequential decode loop returns the element the index points at. -/
theorem decodeLoop_ok (T : Type) (xs : List T) (i : Nat) (x : T)
    (h : xs[i]? = some x) : decodeLoop xs i = Except.ok x := by
  induction xs generalizing i with
  | nil => simp at h
  | cons y ys ih =>
    cases i with
    | zero =>
      simp at h
      rw [h]
      rfl
    | succ j =>
      simp at h
      exact ih j h

/-- The trace-collecting range loop visits the first `n` records in
order, numbering them from `i`. -/
theorem rangeLoop_collect (T : Type) (xs : List T) (n i : Nat)
    (s : List (Nat × T)) (h : n ≤ xs.length) :
    rangeLoop (fun s i x => Except.ok (s ++ [(i, x)])) xs n i s
      = Except.ok (s ++ List.enumFrom i (xs.take n)) := by
  induction xs generalizing n i s with
  | nil =>
    cases n with
    | zero => simp [rangeLoop]
    | succ m => simp at h
  | cons y ys ih =>
    cases n with
    | zero => simp [rangeLoop]
    | succ m =>
      rw [rangeLoop]
      simp only [List.take_succ_cons, List.enumFrom_cons]
      rw [ih m (i + 1) (s ++ [(i, y)]) (by simpa using h)]
      simp

/-! ## Claim C8 -/

/-- C8: after appending the items of `xs` to a fresh spill, the length
is `xs.length`; `get i` returns the i-th appended item for every i in
range and fails with an out-of-bounds error for every i at or beyond the
length; and `range` invokes its callback exactly on the indices
0 .. n−1 with the items in insertion order (witnessed by a callback that
records its invocations). -/
theorem fileSpill_dense_log (T : Type) (xs : List T) :
    (FileSpill.appendAll (FileSpill.new T) xs).len = xs.length
  ∧ (∀ i x, xs[i]? = some x →
      (FileSpill.appendAll (FileSpill.new T) xs).get i = Except.ok x)
  ∧ (∀ i, xs.length ≤ i →
      (FileSpill.appendAll (FileSpill.new T) xs).get i
        = Except.error ("index " ++ toString i ++ " out of bounds (length "
            ++ toString xs.length ++ ")"))
  ∧ (FileSpill.range (FileSpill.appendAll (FileSpill.new T) xs)
      (fun s i x => Except.ok (s ++ [(i, x)])) []
        = Except.ok (List.enumFrom 0 xs)) := by
  have hall : FileSpill.appendAll (FileSpill.new T) xs
      = { items := xs, length := xs.length } := by
    have h0 : FileSpill.new T = { items := [], length := List.length ([] : List T) } := rfl
    rw [h0, appendAll_consistent]
    simp
  refine ⟨?_, ?_, ?_, ?_⟩
  · rw [hall]
    rfl
  · intro i x hx
    have hlt : i < xs.length := by
      by_contra hge
      rw [List.getElem?_eq_none (by omega)] at hx
      cases hx
    rw [hall, FileSpill.get]
    have hcond : ¬ ({ items := xs, length := xs.length } : FileSpill T).length ≤ i := by
      show ¬ xs.length ≤ i
      omega
    rw [if_neg hcond]
    exact decodeLoop_ok T xs i x hx
  · intro i hge
    rw [hall, FileSpill.get]
    rw [if_pos hge]
  · rw [hall, FileSpill.range]
    rw [rangeLoop_collect T xs xs.length 0 [] (le_refl _)]
    simp

/-- C8 witness: a two-item spill over naturals. -/
theorem fileSpill_dense_log_witness :
    (FileSpill.appendAll (FileSpill.new Nat) [10, 20]).len = 2
  ∧ (FileSpill.appendAll (FileSpill.new Nat) [10, 20]).get 0 = Except.ok 10
  ∧ (FileSpill.appendAll (FileSpill.new Nat) [10, 20]).get 1 = Except.ok 20
  ∧ (FileSpill.appendAll (FileSpill.new Nat) [10, 20]).get 2
      = Except.error ("index " ++ toString 2 ++ " out of bounds (length "
          ++ toString 2 ++ ")")
  ∧ FileSpill.range (FileSpill.appendAll (FileSpill.new Nat) [10, 20])
      (fun s i x => Except.ok (s ++ [(i, x)])) []
        = Except.ok [(0, 10), (1, 20)] :=
  ⟨(fileSpill_dense_log Nat [10, 20]).1,
   (fileSpill_dense_log Nat [10, 20]).2.1 0 10 (by decide),
   (fileSpill_dense_log Nat [10, 20]).2.1 1 20 (by decide),
   (fileSpill_dense_log Nat [10, 20]).2.2.1 2 (by decide),
   (fileSpill_dense_log Nat [10, 20]).2.2.2⟩

end Gooze
